import Mathlib

/-!
Verification of the S-expression subsystem of `src/new-sexpr.rs`:
the `Value` tree, the stack-based `Builder` with latched errors, the
character-stream `parse` / `parse_word` functions, and the recursive
arithmetic evaluator `eval`.

Modelling conventions:
* Rust `f64` is modelled by `F64`: an exact rational together with the
  IEEE special values `inf`, `negInf` and `nan`.  Arithmetic on finite
  values is exact rational arithmetic (rounding is not modelled; every
  computation appearing in the claims is exact in `f64` as well), and
  the special values follow the IEEE rules for the operations used
  (in particular finite nonzero divided by zero gives a signed
  infinity and `0 / 0` gives `nan`).  The negative zero of IEEE is not
  modelled; no claim involves it.
* `Vec` is modelled by `List`; for the builder stack the head of the
  list is the top of the stack (the end of the Rust `Vec`).
* Fallible Rust functions returning `Result<T, String>` are modelled
  by `Except String T`; the builder-mutating functions take and
  return the builder explicitly.
-/

namespace Sexpr

/-- Extended-rational model of Rust `f64` (see the module comment). -/
inductive F64 where
  | finite (q : ℚ)
  | inf
  | negInf
  | nan
deriving DecidableEq, Repr

namespace F64

/-- IEEE addition on the model. -/
def add : F64 → F64 → F64
  | nan, _ => nan
  | _, nan => nan
  | finite a, finite b => finite (a + b)
  | inf, negInf => nan
  | negInf, inf => nan
  | inf, _ => inf
  | _, inf => inf
  | negInf, _ => negInf
  | _, negInf => negInf

/-- IEEE subtraction on the model. -/
def sub : F64 → F64 → F64
  | nan, _ => nan
  | _, nan => nan
  | finite a, finite b => finite (a - b)
  | inf, inf => nan
  | negInf, negInf => nan
  | inf, _ => inf
  | negInf, _ => negInf
  | finite _, inf => negInf
  | finite _, negInf => inf

/-- IEEE multiplication on the model. -/
def mul : F64 → F64 → F64
  | nan, _ => nan
  | _, nan => nan
  | finite a, finite b => finite (a * b)
  | inf, inf => inf
  | inf, negInf => negInf
  | negInf, inf => negInf
  | negInf, negInf => inf
  | inf, finite b => if b = 0 then nan else if 0 < b then inf else negInf
  | finite a, inf => if a = 0 then nan else if 0 < a then inf else negInf
  | negInf, finite b => if b = 0 then nan else if 0 < b then negInf else inf
  | finite a, negInf => if a = 0 then nan else if 0 < a then negInf else inf

/-- IEEE division on the model; division of a finite nonzero value by
zero yields a signed infinity, `0 / 0` yields `nan`. -/
def div : F64 → F64 → F64
  | nan, _ => nan
  | _, nan => nan
  | finite a, finite b =>
      if b = 0 then
        if a = 0 then nan else if 0 < a then inf else negInf
      else finite (a / b)
  | inf, finite b => if b < 0 then negInf else inf
  | negInf, finite b => if b < 0 then inf else negInf
  | finite _, inf => finite 0
  | finite _, negInf => finite 0
  | inf, inf => nan
  | inf, negInf => nan
  | negInf, inf => nan
  | negInf, negInf => nan

instance : Add F64 := ⟨add⟩
instance : Sub F64 := ⟨sub⟩
instance : Mul F64 := ⟨mul⟩
instance : Div F64 := ⟨div⟩

instance (n : ℕ) : OfNat F64 n := ⟨finite n⟩

end F64

/-- The tagged-union value tree of `new-sexpr.rs` (`enum Value`). -/
inductive Value where
  | Number (x : F64)
  | Str (s : String)
  | Bool (b : Bool)
  | Arr (arr : List Value)

/-- The incremental tree assembler of `new-sexpr.rs` (`struct Builder`).
The Rust field `open` is a Lean keyword and is rendered `isOpen`. -/
structure Builder where
  stack : List (List Value)
  current : List Value
  error : Option String
  isOpen : Bool

namespace Builder

/-- Rust `Builder::new`. -/
def new : Builder := { stack := [], current := [], error := none, isOpen := false }

/-- Rust `Builder::push`: when the builder is not open this sets the error
field to "not open!" (overwriting any earlier error, exactly as the
Rust assignment does); the value is appended only when no error is
set afterwards. -/
def push (bld : Builder) (v : Value) : Builder :=
  let bld := if !bld.isOpen then { bld with error := some "not open!" } else bld
  if bld.error.isNone then { bld with current := bld.current ++ [v] } else bld

/-- Rust `Builder::s`. -/
def s (bld : Builder) (t : String) : Builder := bld.push (Value.Str t)

/-- Rust `Builder::b`. -/
def b (bld : Builder) (v : Bool) : Builder := bld.push (Value.Bool v)

/-- Rust `Builder::n`. -/
def n (bld : Builder) (v : F64) : Builder := bld.push (Value.Number v)

/-- Rust `Builder::value`: inspects only the `error` field. -/
def value (bld : Builder) : Except String Value :=
  match bld.error with
  | none => Except.ok (Value.Arr bld.current)
  | some s => Except.error s

/-- Rust `Builder::open` (named `openB` because `open` is a Lean keyword):
the first call merely sets the open flag; later calls push `current`
onto the stack unless an error is latched. -/
def openB (bld : Builder) : Builder :=
  if !bld.isOpen then { bld with isOpen := true }
  else if bld.error.isSome then bld
  else { bld with stack := bld.current :: bld.stack, current := [] }

/-- Rust `Builder::close`: pops the stack when it is non-empty (regardless
of any latched error, as in the Rust source); with an empty stack it
either clears the open flag or latches "mismatched open/close". -/
def close (bld : Builder) : Builder :=
  match bld.stack with
  | last_current :: rest =>
      { bld with stack := rest, current := last_current ++ [Value.Arr bld.current] }
  | [] =>
      if bld.isOpen then { bld with isOpen := false }
      else { bld with error := some "mismatched open/close" }

end Builder

/-- Value of a digit string, most significant first (helper for the
model of Rust `f64::from_str`). -/
def digitsVal (ds : List Char) : ℕ :=
  ds.foldl (fun a c => a * 10 + (c.toNat - '0'.toNat)) 0

/-- Mantissa of a float literal: `Digit+ ('.' Digit*)? | '.' Digit+`,
returning its exact value and the unconsumed rest (helper for the
model of Rust `f64::from_str`). -/
def parseMantissa (cs : List Char) : Option (ℚ × List Char) :=
  let p := cs.span Char.isDigit
  match p.2 with
  | '.' :: r =>
      let p2 := r.span Char.isDigit
      if p.1.isEmpty && p2.1.isEmpty then none
      else some ((digitsVal p.1 : ℚ) + (digitsVal p2.1 : ℚ) / (10 ^ p2.1.length), p2.2)
  | _ =>
      if p.1.isEmpty then none
      else some ((digitsVal p.1 : ℚ), p.2)

/-- Optional exponent part `(('e'|'E') Sign? Digit+)?` of a float
literal, returning the exponent and the unconsumed rest. -/
def parseExponent (cs : List Char) : Option (ℤ × List Char) :=
  match cs with
  | c :: r =>
      if c = 'e' || c = 'E' then
        let p := match r with
          | '-' :: t => (true, t)
          | '+' :: t => (false, t)
          | t => (false, t)
        let p2 := p.2.span Char.isDigit
        if p2.1.isEmpty then none
        else some ((if p.1 then -(digitsVal p2.1 : ℤ) else (digitsVal p2.1 : ℤ)), p2.2)
      else some (0, cs)
  | [] => some (0, [])

/-- Model of Rust `f64::from_str` on the documented grammar
`Sign? ( inf | infinity | nan | Number )` (case-insensitive keywords);
finite results are exact rationals (see the module comment). -/
def parseF64 (w : List Char) : Option F64 :=
  let p := match w with
    | '-' :: r => (true, r)
    | '+' :: r => (false, r)
    | r => (false, r)
  let lower := p.2.map Char.toLower
  if lower = "inf".data || lower = "infinity".data then
    some (if p.1 then F64.negInf else F64.inf)
  else if lower = "nan".data then some F64.nan
  else
    match parseMantissa p.2 with
    | none => none
    | some m =>
        match parseExponent m.2 with
        | none => none
        | some e =>
            if e.2.isEmpty then
              some (F64.finite ((if p.1 then -m.1 else m.1) * (10 : ℚ) ^ e.1))
            else none

/-- Rust `parse_word`: classifies a non-empty token as boolean, number or
string and pushes it; a malformed number aborts with the description
of the Rust float parse error, "invalid float literal". -/
def parse_word (bld : Builder) (word : List Char) : Except String Builder :=
  match word with
  | [] => Except.ok bld
  | first :: _ =>
      if word = ['T'] ∨ word = ['F'] then Except.ok (bld.b (word = ['T']))
      else if first.isDigit = true ∨ first = '-' then
        match parseF64 word with
        | some num => Except.ok (bld.n num)
        | none => Except.error "invalid float literal"
      else Except.ok (bld.s (String.mk word))

/-- Character loop of `parse`: accumulates a word buffer and drives the
builder; a pending word is flushed on whitespace and before a close,
but not before an open and not at the end of input. -/
def parseLoop (bld : Builder) (word : List Char) : List Char → Except String Builder
  | [] => Except.ok bld
  | ch :: rest =>
      if ch.isWhitespace then
        if word.length > 0 then
          match parse_word bld word with
          | Except.error e => Except.error e
          | Except.ok bld2 => parseLoop bld2 [] rest
        else parseLoop bld word rest
      else if ch = '(' then parseLoop bld.openB word rest
      else if ch = ')' then
        if word.length > 0 then
          match parse_word bld word with
          | Except.error e => Except.error e
          | Except.ok bld2 => parseLoop bld2.close [] rest
        else parseLoop bld.close word rest
      else parseLoop bld (word ++ [ch]) rest

/-- Rust `parse`: runs the character loop on a fresh builder and finishes
with `Builder.value`. -/
def parse (text : String) : Except String Value :=
  match parseLoop Builder.new [] text.data with
  | Except.error e => Except.error e
  | Except.ok bld => bld.value

/-- Structured model of `SexprError`: each constructor corresponds to
one `format!` message of the source, carrying the offending datum the
message embeds (`"cannot convert {:?} to number"`,
`"unknown operator {:?}"`, `"operator must be string {:?}"`). -/
inductive SexprError where
  | cannotConvert (v : Value)
  | unknownOperator (s : String)
  | operatorMustBeString (v : Value)

mutual

/-- Recursive arithmetic evaluator `eval` of `new-sexpr.rs`: an `Arr`
with more than 2 items headed by a `Str` operator is reduced, a
`Number` evaluates to itself, everything else is a conversion error. -/
def eval : Value → Except SexprError F64
  | Value.Arr (op :: x :: y :: rest) =>
      match op with
      | Value.Str s =>
          if s = "+" ∨ s = "*" then
            evalFold (s = "+") (if s = "+" then (0 : F64) else 1) (x :: y :: rest)
          else if s = "-" ∨ s = "/" then
            match eval x with
            | Except.error e => Except.error e
            | Except.ok xv =>
                match eval y with
                | Except.error e => Except.error e
                | Except.ok yv => Except.ok (if s = "-" then xv - yv else xv / yv)
          else Except.error (SexprError.unknownOperator s)
      | v => Except.error (SexprError.operatorMustBeString v)
  | Value.Number x => Except.ok x
  | v => Except.error (SexprError.cannotConvert v)

/-- The accumulator loop of the `"+"` and `"*"` branches of `eval`:
`adding` selects addition from `0.0` versus multiplication from
`1.0`; the first failing element aborts the fold. -/
def evalFold (adding : Bool) (res : F64) : List Value → Except SexprError F64
  | [] => Except.ok res
  | v :: vs =>
      match eval v with
      | Except.error e => Except.error e
      | Except.ok num => evalFold adding (if adding then res + num else res * num) vs

end

mutual

/-- True when the tree contains the string atom `"-"` anywhere. -/
def hasMinusStr : Value → Bool
  | Value.Str s => s = "-"
  | Value.Number _ => false
  | Value.Bool _ => false
  | Value.Arr l => hasMinusStrList l

/-- List companion of `hasMinusStr`. -/
def hasMinusStrList : List Value → Bool
  | [] => false
  | v :: vs => hasMinusStr v || hasMinusStrList vs

end

/-- The sequence of words the `parse` loop flushes into `parse_word`,
in order: mirrors `parseLoop`, collecting the word buffer at each
whitespace flush and each close; the trailing buffer is dropped. -/
def tokensLoop (word : List Char) : List Char → List (List Char)
  | [] => []
  | ch :: rest =>
      if ch.isWhitespace then
        if word.length > 0 then word :: tokensLoop [] rest
        else tokensLoop word rest
      else if ch = '(' then tokensLoop word rest
      else if ch = ')' then
        if word.length > 0 then word :: tokensLoop [] rest
        else tokensLoop word rest
      else tokensLoop (word ++ [ch]) rest

/-- The words of an input text, in the order `parse` classifies them. -/
def tokens (text : String) : List (List Char) := tokensLoop [] text.data

/-- The shapes the spec sends to the "cannot convert to number"
error: a string, a boolean, or an array of at most 2 items. -/
def cannotConvertShape : Value → Bool
  | Value.Str _ => true
  | Value.Bool _ => true
  | Value.Number _ => false
  | Value.Arr l => l.length ≤ 2

/-- A builder state none of whose stored values contains the string
atom `"-"`. -/
def BuilderClean (bld : Builder) : Prop :=
  (∀ l ∈ bld.stack, hasMinusStrList l = false) ∧ hasMinusStrList bld.current = false

/-! ### Helper lemmas about the builder -/

/-- A push on an open builder with a latched error changes nothing. -/
theorem Builder.push_of_isOpen_of_error {bld : Builder} (v : Value) (e : String)
    (he : bld.error = some e) (ho : bld.isOpen = true) : bld.push v = bld := by
  simp [Builder.push, ho, he]

/-- The open operation never touches the error field. -/
theorem Builder.openB_error (bld : Builder) : (bld.openB).error = bld.error := by
  unfold Builder.openB
  split
  · rfl
  · split
    · rfl
    · rfl

/-- An open on an open builder with a latched error changes nothing. -/
theorem Builder.openB_of_isOpen_of_error {bld : Builder} (e : String)
    (he : bld.error = some e) (ho : bld.isOpen = true) : bld.openB = bld := by
  simp [Builder.openB, ho, he]

/-- An open on a closed builder merely sets the open flag. -/
theorem Builder.openB_of_not_isOpen {bld : Builder} (ho : bld.isOpen = false) :
    bld.openB = { bld with isOpen := true } := by
  simp [Builder.openB, ho]

/-- A close on a closed builder with an empty stack latches the
mismatch error. -/
theorem Builder.close_mismatch {bld : Builder} (hs : bld.stack = [])
    (ho : bld.isOpen = false) : bld.close = { bld with error := some "mismatched open/close" } := by
  unfold Builder.close
  rw [hs, ho]
  simp

/-- Finalization looks only at the error field: with no error latched
it returns the current array, whatever the stack and open flag hold. -/
theorem Builder.value_of_error_none {bld : Builder} (he : bld.error = none) :
    bld.value = Except.ok (Value.Arr bld.current) := by
  simp [Builder.value, he]

/-! ### Claim theorems -/

/-- C10: parsing "( one ) )" latches "mismatched open/close" at the
second, unmatched close, and the final `value()` returns that error
rather than the partially built tree. -/
theorem claim_C10_mismatched_close :
    parse "( one ) )" = Except.error "mismatched open/close" := rfl

/-- C1 counterexample: an input made of one balanced form followed by
a second top-level parenthesized form is not rejected; it parses
successfully (the two forms merge into the root array), so the claim
that it is rejected with "mismatched open/close" is false. -/
theorem claim_C1_counterexample :
    parse "( 1 ) ( 2 )" = Except.ok (Value.Arr [Value.Number 1, Value.Number 2]) ∧
    parse "( 1 ) ( 2 )" ≠ Except.error "mismatched open/close" := by
  have h : parse "( 1 ) ( 2 )" = Except.ok (Value.Arr [Value.Number 1, Value.Number 2]) := by
    with_unfolding_all rfl
  refine ⟨h, ?_⟩
  intro hbad
  rw [h] at hbad
  exact Except.noConfusion hbad

/-- C1 amended: a second top-level form is accepted, not rejected:
after the root close resets the open flag, the next open merely sets
it again, so the contents of the second form are appended to the same root
array; "mismatched open/close" is latched only by a close that finds
the stack empty and the open flag already false. -/
theorem claim_C1_second_form_merged :
    (∀ bld : Builder, bld.isOpen = false → bld.openB = { bld with isOpen := true }) ∧
    (∀ bld : Builder, bld.stack = [] → bld.isOpen = false →
      (bld.close).error = some "mismatched open/close") ∧
    parse "( 1 ) ( 2 )" = Except.ok (Value.Arr [Value.Number 1, Value.Number 2]) := by
  refine ⟨fun bld ho => Builder.openB_of_not_isOpen ho, fun bld hs ho => ?_, ?_⟩
  · rw [Builder.close_mismatch hs ho]
  · with_unfolding_all rfl

/-- C1 witness: the amended theorem applied to the fresh builder. -/
theorem claim_C1_witness :
    Builder.new.openB = { Builder.new with isOpen := true } ∧
    (Builder.new.close).error = some "mismatched open/close" :=
  ⟨claim_C1_second_form_merged.1 Builder.new rfl,
   claim_C1_second_form_merged.2.1 Builder.new rfl rfl⟩

/-- C2 counterexample: latching "mismatched open/close" (close on a
fresh builder) and then pushing a value does not preserve the latched
message — the push overwrites it with "not open!", which is what
`value()` then returns. -/
theorem claim_C2_counterexample :
    (Builder.new.close).error = some "mismatched open/close" ∧
    ((Builder.new.close).push (Value.Number 1)).value = Except.error "not open!" ∧
    ((Builder.new.close).push (Value.Number 1)).value ≠
      Except.error "mismatched open/close" := by
  refine ⟨rfl, rfl, ?_⟩
  intro hbad
  have h : ((Builder.new.close).push (Value.Number 1)).value = Except.error "not open!" := rfl
  rw [h] at hbad
  have := Except.error.inj hbad
  exact absurd this (by decide)

/-- C2 amended: once an error is latched, push (and so s, b, n) and
open are no-ops while the builder is open, and open never touches the
error field; but the latch is not absolute: a push while the builder
is not open overwrites the latched error with "not open!" (and a
close with empty stack and closed flag overwrites it with
"mismatched open/close"), so latching "mismatched open/close" and
then pushing leaves "not open!" as the error returned by `value()`. -/
theorem claim_C2_error_latch :
    (∀ (bld : Builder) (v : Value) (e : String),
      bld.error = some e → bld.isOpen = true → bld.push v = bld) ∧
    (∀ (bld : Builder) (e : String),
      bld.error = some e → bld.isOpen = true → bld.openB = bld) ∧
    (∀ bld : Builder, (bld.openB).error = bld.error) ∧
    (∀ (bld : Builder) (v : Value),
      bld.isOpen = false → (bld.push v).error = some "not open!") ∧
    (∀ (bld : Builder) (e : String),
      bld.error = some e → bld.stack = [] → bld.isOpen = false →
      (bld.close).error = some "mismatched open/close") ∧
    ((Builder.new.close).push (Value.Number 1)).value = Except.error "not open!" := by
  refine ⟨fun bld v e he ho => Builder.push_of_isOpen_of_error v e he ho,
    fun bld e he ho => Builder.openB_of_isOpen_of_error e he ho,
    Builder.openB_error,
    fun bld v ho => ?_,
    fun bld e _ hs ho => ?_,
    rfl⟩
  · simp [Builder.push, ho]
  · rw [Builder.close_mismatch hs ho]

/-- C2 witness: the amended theorem applied at concrete builders. -/
theorem claim_C2_witness :
    ({ stack := [], current := [], error := some "e", isOpen := true } : Builder).push
      (Value.Number 1) = { stack := [], current := [], error := some "e", isOpen := true } ∧
    ({ stack := [], current := [], error := some "e", isOpen := true } : Builder).openB =
      { stack := [], current := [], error := some "e", isOpen := true } ∧
    (Builder.new.push (Value.Number 1)).error = some "not open!" ∧
    (({ stack := [], current := [], error := some "e", isOpen := false } : Builder).close).error =
      some "mismatched open/close" :=
  ⟨claim_C2_error_latch.1 _ (Value.Number 1) "e" rfl rfl,
   claim_C2_error_latch.2.1 _ "e" rfl rfl,
   claim_C2_error_latch.2.2.2.1 Builder.new (Value.Number 1) rfl,
   claim_C2_error_latch.2.2.2.2.1 _ "e" rfl rfl rfl⟩

/-- C3 counterexample: the token "+5" matches the number
production, but the parser classifies it by first character (digit or
a minus sign only), so "+5" is pushed as the string atom
`Str "+5"`, not as a `Number`. -/
theorem claim_C3_counterexample :
    parse "( +5 )" = Except.ok (Value.Arr [Value.Str "+5"]) ∧
    parse "( +5 )" ≠ Except.ok (Value.Arr [Value.Number 5]) := by
  have h : parse "( +5 )" = Except.ok (Value.Arr [Value.Str "+5"]) := rfl
  refine ⟨h, ?_⟩
  intro hbad
  rw [h] at hbad
  simp at hbad

/-- C3 amended: a token is classified as a number exactly when its
first character is a digit or a minus sign; such a token that parses
as a float is pushed as a `Number`, while a token with a leading plus
sign such as "+5" falls through to the string branch and is pushed
as `Str "+5"`. -/
theorem claim_C3_number_classification :
    (∀ (bld : Builder) (c : Char) (cs : List Char) (num : F64),
      (c.isDigit = true ∨ c = '-') → parseF64 (c :: cs) = some num →
      parse_word bld (c :: cs) = Except.ok (bld.n num)) ∧
    parse "( 5 )" = Except.ok (Value.Arr [Value.Number 5]) ∧
    parse "( +5 )" = Except.ok (Value.Arr [Value.Str "+5"]) := by
  refine ⟨?_, by with_unfolding_all rfl, rfl⟩
  intro bld c cs num h1 h2
  have hT : ¬(c :: cs = ['T'] ∨ c :: cs = ['F']) := by
    rintro (h | h) <;>
      (rw [List.cons.injEq] at h; obtain ⟨rfl, rfl⟩ := h;
       rcases h1 with h1 | h1 <;> exact absurd h1 (by decide))
  have hw : parse_word bld (c :: cs) =
      (if c :: cs = ['T'] ∨ c :: cs = ['F'] then Except.ok (bld.b (decide (c :: cs = ['T'])))
       else if c.isDigit = true ∨ c = '-' then
         match parseF64 (c :: cs) with
         | some num => Except.ok (bld.n num)
         | none => Except.error "invalid float literal"
       else Except.ok (bld.s (String.mk (c :: cs)))) := rfl
  rw [hw, if_neg hT, if_pos h1, h2]

/-- C3 witness: the amended theorem applied to the token "5" on a
fresh builder. -/
theorem claim_C3_witness :
    parse_word Builder.new ['5'] = Except.ok (Builder.new.n 5) :=
  claim_C3_number_classification.1 Builder.new '5' [] 5 (Or.inl rfl)
    (by with_unfolding_all rfl)

/-- C5 counterexample: the claimed result of parsing "( 1 ( 2 3" is
wrong — the trailing word "3" is never flushed (the input ends
without whitespace or a close), so the result array holds only
`Number 2`. -/
theorem claim_C5_counterexample :
    parse "( 1 ( 2 3" = Except.ok (Value.Arr [Value.Number 2]) ∧
    parse "( 1 ( 2 3" ≠ Except.ok (Value.Arr [Value.Number 2, Value.Number 3]) := by
  have h : parse "( 1 ( 2 3" = Except.ok (Value.Arr [Value.Number 2]) := by
    with_unfolding_all rfl
  refine ⟨h, ?_⟩
  intro hbad
  rw [h] at hbad
  simp at hbad

/-- C5 amended: unclosed parentheses are never reported — `value()`
inspects only the error field, ignoring the open flag and the stack,
so an input whose only defect is unclosed opens returns Ok with the
flushed contents of the innermost level and the outer saved levels
discarded; a trailing word not followed by whitespace or a close is
never flushed, so "( 1 ( 2 3" yields only `Number 2` while
"( 1 ( 2 3 " (with trailing space) also keeps `Number 3`. -/
theorem claim_C5_value_ignores_stack :
    (∀ bld : Builder, bld.error = none → bld.value = Except.ok (Value.Arr bld.current)) ∧
    parse "( 1 ( 2 3" = Except.ok (Value.Arr [Value.Number 2]) ∧
    parse "( 1 ( 2 3 " = Except.ok (Value.Arr [Value.Number 2, Value.Number 3]) ∧
    parse "" = Except.ok (Value.Arr []) :=
  ⟨fun _ he => Builder.value_of_error_none he,
   by with_unfolding_all rfl,
   by with_unfolding_all rfl,
   rfl⟩

/-- C5 witness: finalizing the fresh builder through the amended
theorem. -/
theorem claim_C5_witness :
    Builder.new.value = Except.ok (Value.Arr []) :=
  claim_C5_value_ignores_stack.1 Builder.new rfl

/-- The accumulator loop of `eval` is the monadic left fold of the
claimed accumulate-or-abort step over the element list. -/
theorem evalFold_eq_foldlM (adding : Bool) (res : F64) (l : List Value) :
    evalFold adding res l =
      List.foldlM
        (fun acc v => Except.map (fun num => if adding then acc + num else acc * num) (eval v))
        res l := by
  induction l generalizing res with
  | nil => rfl
  | cons v vs ih =>
      rw [evalFold, List.foldlM]
      cases heval : eval v with
      | error e => rfl
      | ok num =>
          simp only [Except.map, ih]
          rfl

/-- C6: for an `Arr` of more than 2 items headed by `Str "+"`, `eval`
folds over the remaining items from accumulator `0.0` by addition,
aborting on the first element whose evaluation fails; with head
`Str "*"` the same fold starts at `1.0` and multiplies; in particular
(+ 2 3 4) evaluates to 9. -/
theorem claim_C6_add_mul_fold :
    (∀ (x y : Value) (rest : List Value),
      eval (Value.Arr (Value.Str "+" :: x :: y :: rest)) =
        List.foldlM (fun acc v => Except.map (fun num => acc + num) (eval v))
          (0 : F64) (x :: y :: rest)) ∧
    (∀ (x y : Value) (rest : List Value),
      eval (Value.Arr (Value.Str "*" :: x :: y :: rest)) =
        List.foldlM (fun acc v => Except.map (fun num => acc * num) (eval v))
          (1 : F64) (x :: y :: rest)) ∧
    eval (Value.Arr [Value.Str "+", Value.Number 2, Value.Number 3, Value.Number 4]) =
      Except.ok 9 := by
  refine ⟨fun x y rest => ?_, fun x y rest => ?_, by with_unfolding_all rfl⟩
  · have h : eval (Value.Arr (Value.Str "+" :: x :: y :: rest)) =
        evalFold true 0 (x :: y :: rest) := rfl
    rw [h, evalFold_eq_foldlM]
    rfl
  · have h : eval (Value.Arr (Value.Str "*" :: x :: y :: rest)) =
        evalFold false 1 (x :: y :: rest) := rfl
    rw [h, evalFold_eq_foldlM]
    rfl

/-- C7: for an `Arr` of more than 2 items headed by `Str "-"`, `eval`
evaluates exactly items 1 and 2 and subtracts, ignoring every element
beyond index 2; (- 10 3) evaluates to 7. -/
theorem claim_C7_sub_binary :
    (∀ (x y : Value) (rest : List Value),
      eval (Value.Arr (Value.Str "-" :: x :: y :: rest)) =
        (eval x).bind (fun a => (eval y).bind (fun b => Except.ok (a - b)))) ∧
    (∀ (x y : Value) (rest : List Value),
      eval (Value.Arr (Value.Str "-" :: x :: y :: rest)) =
        eval (Value.Arr [Value.Str "-", x, y])) ∧
    eval (Value.Arr [Value.Str "-", Value.Number 10, Value.Number 3]) = Except.ok 7 := by
  refine ⟨fun x y rest => ?_, fun x y rest => rfl, by with_unfolding_all rfl⟩
  cases hx : eval x with
  | error e =>
      have h : eval (Value.Arr (Value.Str "-" :: x :: y :: rest)) =
          (match eval x with
           | Except.error e => Except.error e
           | Except.ok xv =>
              match eval y with
              | Except.error e => Except.error e
              | Except.ok yv => Except.ok (xv - yv)) := rfl
      rw [h, hx]
      rfl
  | ok a =>
      have h : eval (Value.Arr (Value.Str "-" :: x :: y :: rest)) =
          (match eval x with
           | Except.error e => Except.error e
           | Except.ok xv =>
              match eval y with
              | Except.error e => Except.error e
              | Except.ok yv => Except.ok (xv - yv)) := rfl
      rw [h, hx]
      cases hy : eval y with
      | error e => rfl
      | ok b => rfl

/-- C8: for an `Arr` of more than 2 items headed by `Str "/"`, `eval`
divides the evaluations of items 1 and 2 with no zero guard: the
division of a finite value by zero follows the IEEE rules (signed
infinity, or `nan` for 0/0) and is never an error; (/ 1 0) evaluates
to positive infinity. -/
theorem claim_C8_div_unguarded :
    (∀ (x y : Value) (rest : List Value),
      eval (Value.Arr (Value.Str "/" :: x :: y :: rest)) =
        (eval x).bind (fun a => (eval y).bind (fun b => Except.ok (a / b)))) ∧
    (∀ q : ℚ, F64.finite q / F64.finite 0 =
      (if q = 0 then F64.nan else if 0 < q then F64.inf else F64.negInf)) ∧
    eval (Value.Arr [Value.Str "/", Value.Number 1, Value.Number 0]) =
      Except.ok F64.inf := by
  refine ⟨fun x y rest => ?_, fun q => rfl, by with_unfolding_all rfl⟩
  cases hx : eval x with
  | error e =>
      have h : eval (Value.Arr (Value.Str "/" :: x :: y :: rest)) =
          (match eval x with
           | Except.error e => Except.error e
           | Except.ok xv =>
              match eval y with
              | Except.error e => Except.error e
              | Except.ok yv => Except.ok (xv / yv)) := rfl
      rw [h, hx]
      rfl
  | ok a =>
      have h : eval (Value.Arr (Value.Str "/" :: x :: y :: rest)) =
          (match eval x with
           | Except.error e => Except.error e
           | Except.ok xv =>
              match eval y with
              | Except.error e => Except.error e
              | Except.ok yv => Except.ok (xv / yv)) := rfl
      rw [h, hx]
      cases hy : eval y with
      | error e => rfl
      | ok b => rfl

/-- An error coming out of the accumulator loop of `eval` is the
error of some element of the list. -/
theorem evalFold_error_mem {adding : Bool} {res : F64} {l : List Value} {e : SexprError}
    (h : evalFold adding res l = Except.error e) :
    ∃ v ∈ l, eval v = Except.error e := by
  induction l generalizing res with
  | nil => exact absurd h (by simp [evalFold])
  | cons v vs ih =>
      rw [evalFold] at h
      cases heval : eval v with
      | error e2 =>
          rw [heval] at h
          have h2 : (Except.error e2 : Except SexprError F64) = Except.error e := h
          exact ⟨v, List.mem_cons_self v vs, by rw [heval, Except.error.inj h2]⟩
      | ok num =>
          rw [heval] at h
          obtain ⟨w, hw, he⟩ := ih h
          exact ⟨w, List.mem_cons_of_mem v hw, he⟩

/-- Unfolding of `eval` on a long array headed by a string operator. -/
theorem eval_str_arr_eq (s : String) (x y : Value) (rest : List Value) :
    eval (Value.Arr (Value.Str s :: x :: y :: rest)) =
      (if s = "+" ∨ s = "*" then
        evalFold (decide (s = "+")) (if s = "+" then (0 : F64) else 1) (x :: y :: rest)
       else if s = "-" ∨ s = "/" then
         (match eval x with
          | Except.error e => Except.error e
          | Except.ok xv =>
              match eval y with
              | Except.error e => Except.error e
              | Except.ok yv => Except.ok (if s = "-" then xv - yv else xv / yv))
       else Except.error (SexprError.unknownOperator s)) := rfl

/-- The value inside a "cannot convert" error of `eval` is never
larger than the evaluated value (it is the value itself or a value
found inside it). -/
theorem eval_cannotConvert_sizeOf :
    ∀ (n : ℕ) (v w : Value), sizeOf v ≤ n →
      eval v = Except.error (SexprError.cannotConvert w) → sizeOf w ≤ sizeOf v := by
  intro n
  induction n with
  | zero =>
      intro v w h0 _
      cases v <;> simp at h0
  | succ n ih =>
      intro v w hle heval
      cases v with
      | Number x => exact Except.noConfusion (heval :
          (Except.ok x : Except SexprError F64) = Except.error (SexprError.cannotConvert w))
      | Str s =>
          have h2 := Except.error.inj (heval :
            Except.error (SexprError.cannotConvert (Value.Str s)) =
              Except.error (SexprError.cannotConvert w))
          rw [← SexprError.cannotConvert.inj h2]
      | Bool b =>
          have h2 := Except.error.inj (heval :
            Except.error (SexprError.cannotConvert (Value.Bool b)) =
              Except.error (SexprError.cannotConvert w))
          rw [← SexprError.cannotConvert.inj h2]
      | Arr l =>
          match l, heval with
          | [], heval =>
              have h2 := Except.error.inj (heval :
                Except.error (SexprError.cannotConvert (Value.Arr [])) =
                  Except.error (SexprError.cannotConvert w))
              rw [← SexprError.cannotConvert.inj h2]
          | [a], heval =>
              have h2 := Except.error.inj (heval :
                Except.error (SexprError.cannotConvert (Value.Arr [a])) =
                  Except.error (SexprError.cannotConvert w))
              rw [← SexprError.cannotConvert.inj h2]
          | [a, b], heval =>
              have h2 := Except.error.inj (heval :
                Except.error (SexprError.cannotConvert (Value.Arr [a, b])) =
                  Except.error (SexprError.cannotConvert w))
              rw [← SexprError.cannotConvert.inj h2]
          | op :: x :: y :: rest, heval =>
              have hxmem : x ∈ op :: x :: y :: rest := by simp
              have hymem : y ∈ op :: x :: y :: rest := by simp
              cases op with
              | Number z => exact SexprError.noConfusion (Except.error.inj (heval :
                  Except.error (SexprError.operatorMustBeString (Value.Number z)) =
                    Except.error (SexprError.cannotConvert w)))
              | Bool z => exact SexprError.noConfusion (Except.error.inj (heval :
                  Except.error (SexprError.operatorMustBeString (Value.Bool z)) =
                    Except.error (SexprError.cannotConvert w)))
              | Arr z => exact SexprError.noConfusion (Except.error.inj (heval :
                  Except.error (SexprError.operatorMustBeString (Value.Arr z)) =
                    Except.error (SexprError.cannotConvert w)))
              | Str s =>
                  rw [eval_str_arr_eq] at heval
                  by_cases hs1 : s = "+" ∨ s = "*"
                  · rw [if_pos hs1] at heval
                    obtain ⟨u, hu, hue⟩ := evalFold_error_mem heval
                    have humem : u ∈ Value.Str s :: x :: y :: rest :=
                      List.mem_cons_of_mem _ hu
                    have hult : sizeOf u < sizeOf (Value.Arr (Value.Str s :: x :: y :: rest)) := by
                      have := List.sizeOf_lt_of_mem humem
                      simp only [Value.Arr.sizeOf_spec]
                      omega
                    have hun : sizeOf u ≤ n := by omega
                    exact le_trans (ih u w hun hue) (le_of_lt hult)
                  · rw [if_neg hs1] at heval
                    by_cases hs2 : s = "-" ∨ s = "/"
                    · rw [if_pos hs2] at heval
                      have hxlt : sizeOf x < sizeOf (Value.Arr (Value.Str s :: x :: y :: rest)) := by
                        have := List.sizeOf_lt_of_mem hxmem
                        simp only [Value.Arr.sizeOf_spec]
                        omega
                      have hylt : sizeOf y < sizeOf (Value.Arr (Value.Str s :: x :: y :: rest)) := by
                        have := List.sizeOf_lt_of_mem hymem
                        simp only [Value.Arr.sizeOf_spec]
                        omega
                      cases hx : eval x with
                      | error e2 =>
                          rw [hx] at heval
                          have h2 : (Except.error e2 : Except SexprError F64) =
                              Except.error (SexprError.cannotConvert w) := heval
                          have hxe : eval x = Except.error (SexprError.cannotConvert w) := by
                            rw [hx, Except.error.inj h2]
                          have hxn : sizeOf x ≤ n := by omega
                          exact le_trans (ih x w hxn hxe) (le_of_lt hxlt)
                      | ok xv =>
                          rw [hx] at heval
                          cases hy : eval y with
                          | error e2 =>
                              rw [hy] at heval
                              have h2 : (Except.error e2 : Except SexprError F64) =
                                  Except.error (SexprError.cannotConvert w) := heval
                              have hye : eval y = Except.error (SexprError.cannotConvert w) := by
                                rw [hy, Except.error.inj h2]
                              have hyn : sizeOf y ≤ n := by omega
                              exact le_trans (ih y w hyn hye) (le_of_lt hylt)
                          | ok yv =>
                              rw [hy] at heval
                              exact Except.noConfusion (heval :
                                (Except.ok (if s = "-" then xv - yv else xv / yv) :
                                  Except SexprError F64) =
                                  Except.error (SexprError.cannotConvert w))
                    · rw [if_neg hs2] at heval
                      exact SexprError.noConfusion (Except.error.inj heval)

/-- On a long array the "cannot convert" error always carries a value
strictly inside the array, never the array itself. -/
theorem eval_big_arr_cannotConvert_lt (op x y : Value) (rest : List Value) (w : Value)
    (heval : eval (Value.Arr (op :: x :: y :: rest)) =
      Except.error (SexprError.cannotConvert w)) :
    sizeOf w < sizeOf (Value.Arr (op :: x :: y :: rest)) := by
  have hxmem : x ∈ op :: x :: y :: rest := by simp
  have hymem : y ∈ op :: x :: y :: rest := by simp
  cases op with
  | Number z => exact SexprError.noConfusion (Except.error.inj (heval :
      Except.error (SexprError.operatorMustBeString (Value.Number z)) =
        Except.error (SexprError.cannotConvert w)))
  | Bool z => exact SexprError.noConfusion (Except.error.inj (heval :
      Except.error (SexprError.operatorMustBeString (Value.Bool z)) =
        Except.error (SexprError.cannotConvert w)))
  | Arr z => exact SexprError.noConfusion (Except.error.inj (heval :
      Except.error (SexprError.operatorMustBeString (Value.Arr z)) =
        Except.error (SexprError.cannotConvert w)))
  | Str s =>
      rw [eval_str_arr_eq] at heval
      by_cases hs1 : s = "+" ∨ s = "*"
      · rw [if_pos hs1] at heval
        obtain ⟨u, hu, hue⟩ := evalFold_error_mem heval
        have humem : u ∈ Value.Str s :: x :: y :: rest := List.mem_cons_of_mem _ hu
        have hult : sizeOf u < sizeOf (Value.Arr (Value.Str s :: x :: y :: rest)) := by
          have := List.sizeOf_lt_of_mem humem
          simp only [Value.Arr.sizeOf_spec]
          omega
        have := eval_cannotConvert_sizeOf (sizeOf u) u w le_rfl hue
        omega
      · rw [if_neg hs1] at heval
        by_cases hs2 : s = "-" ∨ s = "/"
        · rw [if_pos hs2] at heval
          have hxlt : sizeOf x < sizeOf (Value.Arr (Value.Str s :: x :: y :: rest)) := by
            have := List.sizeOf_lt_of_mem hxmem
            simp only [Value.Arr.sizeOf_spec]
            omega
          have hylt : sizeOf y < sizeOf (Value.Arr (Value.Str s :: x :: y :: rest)) := by
            have := List.sizeOf_lt_of_mem hymem
            simp only [Value.Arr.sizeOf_spec]
            omega
          cases hx : eval x with
          | error e2 =>
              rw [hx] at heval
              have h2 : (Except.error e2 : Except SexprError F64) =
                  Except.error (SexprError.cannotConvert w) := heval
              have hxe : eval x = Except.error (SexprError.cannotConvert w) := by
                rw [hx, Except.error.inj h2]
              have := eval_cannotConvert_sizeOf (sizeOf x) x w le_rfl hxe
              omega
          | ok xv =>
              rw [hx] at heval
              cases hy : eval y with
              | error e2 =>
                  rw [hy] at heval
                  have h2 : (Except.error e2 : Except SexprError F64) =
                      Except.error (SexprError.cannotConvert w) := heval
                  have hye : eval y = Except.error (SexprError.cannotConvert w) := by
                    rw [hy, Except.error.inj h2]
                  have := eval_cannotConvert_sizeOf (sizeOf y) y w le_rfl hye
                  omega
              | ok yv =>
                  rw [hy] at heval
                  exact Except.noConfusion (heval :
                    (Except.ok (if s = "-" then xv - yv else xv / yv) :
                      Except SexprError F64) =
                      Except.error (SexprError.cannotConvert w))
        · rw [if_neg hs2] at heval
          exact SexprError.noConfusion (Except.error.inj heval)

/-- C9: `eval` returns the "cannot convert to number" error carrying
the evaluated value itself exactly for a string, a boolean, or an
array of at most 2 items; in particular "( )" parses to the empty
root array and evaluating that empty array fails with the cannot
convert error. -/
theorem claim_C9_cannot_convert :
    (∀ v : Value,
      cannotConvertShape v = true ↔
        eval v = Except.error (SexprError.cannotConvert v)) ∧
    parse "( )" = Except.ok (Value.Arr []) ∧
    eval (Value.Arr []) = Except.error (SexprError.cannotConvert (Value.Arr [])) := by
  refine ⟨fun v => ?_, rfl, rfl⟩
  cases v with
  | Number x =>
      constructor
      · intro h
        exact absurd h (by simp [cannotConvertShape])
      · intro h
        exact Except.noConfusion (h :
          (Except.ok x : Except SexprError F64) =
            Except.error (SexprError.cannotConvert (Value.Number x)))
  | Str s => exact iff_of_true rfl rfl
  | Bool b => exact iff_of_true rfl rfl
  | Arr l =>
      match l with
      | [] => exact iff_of_true rfl rfl
      | [a] => exact iff_of_true rfl rfl
      | [a, b] => exact iff_of_true rfl rfl
      | op :: x :: y :: rest =>
          constructor
          · intro h
            simp [cannotConvertShape] at h
          · intro h
            have := eval_big_arr_cannotConvert_lt op x y rest _ h
            omega

/-- C9 witness: the iff applied at the string atom "x". -/
theorem claim_C9_witness :
    eval (Value.Str "x") = Except.error (SexprError.cannotConvert (Value.Str "x")) :=
  (claim_C9_cannot_convert.1 (Value.Str "x")).mp rfl

/-- The single-character word "-" always fails numeric
classification with the Rust float error description. -/
theorem parse_word_dash (bld : Builder) :
    parse_word bld ['-'] = Except.error "invalid float literal" := rfl

/-- If the word "-" is among the tokens the loop will flush, the loop
ends in an error (the flush of "-" fails, unless an earlier flush
already failed). -/
theorem parseLoop_error_of_dash_token :
    ∀ (cs word : List Char) (bld : Builder),
      ['-'] ∈ tokensLoop word cs → ∃ e, parseLoop bld word cs = Except.error e := by
  intro cs
  induction cs with
  | nil =>
      intro word bld h
      simp [tokensLoop] at h
  | cons ch rest ih =>
      intro word bld h
      by_cases hws : ch.isWhitespace = true
      · by_cases hlen : word.length > 0
        · rw [tokensLoop, if_pos hws, if_pos hlen] at h
          rw [parseLoop, if_pos hws, if_pos hlen]
          rcases List.mem_cons.mp h with heq | hmem
          · exact ⟨"invalid float literal", by rw [← heq, parse_word_dash]⟩
          · cases hpw : parse_word bld word with
            | error e => exact ⟨e, rfl⟩
            | ok bld2 =>
                obtain ⟨e, he⟩ := ih [] bld2 hmem
                exact ⟨e, he⟩
        · rw [tokensLoop, if_pos hws, if_neg hlen] at h
          rw [parseLoop, if_pos hws, if_neg hlen]
          exact ih word bld h
      · by_cases hop : ch = '('
        · rw [tokensLoop, if_neg hws, if_pos hop] at h
          rw [parseLoop, if_neg hws, if_pos hop]
          exact ih word bld.openB h
        · by_cases hcl : ch = ')'
          · by_cases hlen : word.length > 0
            · rw [tokensLoop, if_neg hws, if_neg hop, if_pos hcl, if_pos hlen] at h
              rw [parseLoop, if_neg hws, if_neg hop, if_pos hcl, if_pos hlen]
              rcases List.mem_cons.mp h with heq | hmem
              · exact ⟨"invalid float literal", by rw [← heq, parse_word_dash]⟩
              · cases hpw : parse_word bld word with
                | error e => exact ⟨e, rfl⟩
                | ok bld2 =>
                    obtain ⟨e, he⟩ := ih [] bld2.close hmem
                    exact ⟨e, he⟩
            · rw [tokensLoop, if_neg hws, if_neg hop, if_pos hcl, if_neg hlen] at h
              rw [parseLoop, if_neg hws, if_neg hop, if_pos hcl, if_neg hlen]
              exact ih word bld.close h
          · rw [tokensLoop, if_neg hws, if_neg hop, if_neg hcl] at h
            rw [parseLoop, if_neg hws, if_neg hop, if_neg hcl]
            exact ih (word ++ [ch]) bld h

/-- Splitting `hasMinusStrList` over an append. -/
theorem hasMinusStrList_append (l1 l2 : List Value) :
    hasMinusStrList (l1 ++ l2) = (hasMinusStrList l1 || hasMinusStrList l2) := by
  induction l1 with
  | nil => rfl
  | cons v vs ih =>
      rw [List.cons_append, hasMinusStrList, hasMinusStrList, ih, Bool.or_assoc]

/-- The fresh builder is clean. -/
theorem builderClean_new : BuilderClean Builder.new :=
  ⟨fun _ hl => absurd hl (List.not_mem_nil _), rfl⟩

/-- Pushing a clean value keeps a builder clean. -/
theorem builderClean_push {bld : Builder} {v : Value}
    (hb : BuilderClean bld) (hv : hasMinusStr v = false) : BuilderClean (bld.push v) := by
  have key : ∀ b2 : Builder, BuilderClean b2 →
      BuilderClean (if b2.error.isNone then { b2 with current := b2.current ++ [v] } else b2) := by
    intro b2 hb2
    split
    · refine ⟨hb2.1, ?_⟩
      show hasMinusStrList (b2.current ++ [v]) = false
      rw [hasMinusStrList_append, hb2.2]
      show (false || (hasMinusStr v || hasMinusStrList [])) = false
      rw [hv]
      rfl
    · exact hb2
  show BuilderClean
    (if (if !bld.isOpen then { bld with error := some "not open!" } else bld).error.isNone
     then _ else _)
  by_cases ho : bld.isOpen = true
  · rw [ho]
    exact key bld hb
  · rw [Bool.not_eq_true] at ho
    rw [ho]
    exact key { bld with error := some "not open!" } ⟨hb.1, hb.2⟩

/-- Opening keeps a builder clean. -/
theorem builderClean_openB {bld : Builder} (hb : BuilderClean bld) :
    BuilderClean bld.openB := by
  unfold Builder.openB
  split
  · exact ⟨hb.1, hb.2⟩
  · split
    · exact hb
    · refine ⟨?_, rfl⟩
      intro l hl
      rcases List.mem_cons.mp hl with rfl | hl2
      · exact hb.2
      · exact hb.1 l hl2

/-- Closing keeps a builder clean. -/
theorem builderClean_close {bld : Builder} (hb : BuilderClean bld) :
    BuilderClean bld.close := by
  unfold Builder.close
  split
  · next last rest heq =>
      refine ⟨fun l hl => hb.1 l (by rw [heq]; exact List.mem_cons_of_mem _ hl), ?_⟩
      show hasMinusStrList (last ++ [Value.Arr bld.current]) = false
      rw [hasMinusStrList_append, hb.1 last (by rw [heq]; exact List.mem_cons_self _ _)]
      show (false || (hasMinusStr (Value.Arr bld.current) || hasMinusStrList [])) = false
      show (false || (hasMinusStrList bld.current || hasMinusStrList [])) = false
      rw [hb.2]
      rfl
  · split
    · exact ⟨hb.1, hb.2⟩
    · exact ⟨hb.1, hb.2⟩

/-- A successful word classification keeps a builder clean: the words
pushed as strings never have a minus sign as first character, so the
string atom "-" is never pushed. -/
theorem builderClean_parse_word {bld bld2 : Builder} {w : List Char}
    (hb : BuilderClean bld) (h : parse_word bld w = Except.ok bld2) : BuilderClean bld2 := by
  cases w with
  | nil =>
      have h2 : (Except.ok bld : Except String Builder) = Except.ok bld2 := h
      rw [← Except.ok.inj h2]
      exact hb
  | cons first t =>
      have hw : parse_word bld (first :: t) =
          (if first :: t = ['T'] ∨ first :: t = ['F'] then
            Except.ok (bld.b (decide (first :: t = ['T'])))
           else if first.isDigit = true ∨ first = '-' then
             match parseF64 (first :: t) with
             | some num => Except.ok (bld.n num)
             | none => Except.error "invalid float literal"
           else Except.ok (bld.s (String.mk (first :: t)))) := rfl
      rw [hw] at h
      by_cases hTF : first :: t = ['T'] ∨ first :: t = ['F']
      · rw [if_pos hTF] at h
        rw [← Except.ok.inj h]
        exact builderClean_push hb rfl
      · rw [if_neg hTF] at h
        by_cases hnum : first.isDigit = true ∨ first = '-'
        · rw [if_pos hnum] at h
          cases hp : parseF64 (first :: t) with
          | none =>
              rw [hp] at h
              exact Except.noConfusion (h :
                (Except.error "invalid float literal" : Except String Builder) =
                  Except.ok bld2)
          | some num =>
              rw [hp] at h
              have h2 : (Except.ok (bld.n num) : Except String Builder) = Except.ok bld2 := h
              rw [← Except.ok.inj h2]
              exact builderClean_push hb rfl
        · rw [if_neg hnum] at h
          rw [← Except.ok.inj h]
          refine builderClean_push hb ?_
          show decide (String.mk (first :: t) = "-") = false
          rw [decide_eq_false_iff_not]
          intro hs
          have : first :: t = ['-'] := congrArg String.data hs
          rw [List.cons.injEq] at this
          exact hnum (Or.inr this.1)

/-- The character loop keeps a builder clean. -/
theorem builderClean_parseLoop :
    ∀ (cs word : List Char) (bld bld2 : Builder), BuilderClean bld →
      parseLoop bld word cs = Except.ok bld2 → BuilderClean bld2 := by
  intro cs
  induction cs with
  | nil =>
      intro word bld bld2 hb h
      have h2 : (Except.ok bld : Except String Builder) = Except.ok bld2 := h
      rw [← Except.ok.inj h2]
      exact hb
  | cons ch rest ih =>
      intro word bld bld2 hb h
      by_cases hws : ch.isWhitespace = true
      · by_cases hlen : word.length > 0
        · rw [parseLoop, if_pos hws, if_pos hlen] at h
          cases hpw : parse_word bld word with
          | error e =>
              rw [hpw] at h
              exact Except.noConfusion (h :
                (Except.error e : Except String Builder) = Except.ok bld2)
          | ok bld3 =>
              rw [hpw] at h
              exact ih [] bld3 bld2 (builderClean_parse_word hb hpw) h
        · rw [parseLoop, if_pos hws, if_neg hlen] at h
          exact ih word bld bld2 hb h
      · by_cases hop : ch = '('
        · rw [parseLoop, if_neg hws, if_pos hop] at h
          exact ih word bld.openB bld2 (builderClean_openB hb) h
        · by_cases hcl : ch = ')'
          · by_cases hlen : word.length > 0
            · rw [parseLoop, if_neg hws, if_neg hop, if_pos hcl, if_pos hlen] at h
              cases hpw : parse_word bld word with
              | error e =>
                  rw [hpw] at h
                  exact Except.noConfusion (h :
                    (Except.error e : Except String Builder) = Except.ok bld2)
              | ok bld3 =>
                  rw [hpw] at h
                  exact ih [] bld3.close bld2
                    (builderClean_close (builderClean_parse_word hb hpw)) h
            · rw [parseLoop, if_neg hws, if_neg hop, if_pos hcl, if_neg hlen] at h
              exact ih word bld.close bld2 (builderClean_close hb) h
          · rw [parseLoop, if_neg hws, if_neg hop, if_neg hcl] at h
            exact ih (word ++ [ch]) bld bld2 hb h

/-- C4: the standalone token "-" is classified as a number start and
fails float parsing, so any input whose token stream contains "-"
makes `parse` return an error (the numeric-literal channel is the
only early-exit of the loop), in particular "( - 10 3 )"; hence no
tree produced by `parse` ever contains the string atom "-", so a
subtraction operator form can only come from direct construction. -/
theorem claim_C4_dash_token_aborts :
    (∀ bld : Builder, parse_word bld ['-'] = Except.error "invalid float literal") ∧
    (∀ text : String, ['-'] ∈ tokens text → ∃ e, parse text = Except.error e) ∧
    parse "( - 10 3 )" = Except.error "invalid float literal" ∧
    (∀ (text : String) (v : Value), parse text = Except.ok v → hasMinusStr v = false) := by
  refine ⟨parse_word_dash, fun text h => ?_, rfl, fun text v h => ?_⟩
  · obtain ⟨e, he⟩ := parseLoop_error_of_dash_token text.data [] Builder.new h
    exact ⟨e, by rw [parse, he]⟩
  · rw [parse] at h
    cases hpl : parseLoop Builder.new [] text.data with
    | error e =>
        rw [hpl] at h
        exact Except.noConfusion (h :
          (Except.error e : Except String Value) = Except.ok v)
    | ok bld =>
        rw [hpl] at h
        have h2 : bld.value = Except.ok v := h
        have hclean := builderClean_parseLoop text.data [] Builder.new bld builderClean_new hpl
        cases herr : bld.error with
        | some e =>
            have hv : bld.value = Except.error e := by simp [Builder.value, herr]
            rw [hv] at h2
            exact Except.noConfusion h2
        | none =>
            have hv : bld.value = Except.ok (Value.Arr bld.current) :=
              Builder.value_of_error_none herr
            rw [hv] at h2
            rw [← Except.ok.inj h2]
            show hasMinusStrList bld.current = false
            exact hclean.2

/-- C4 witness: the theorem applied to "( - 10 3 )" and to a parse
that succeeds. -/
theorem claim_C4_witness :
    (['-'] ∈ tokens "( - 10 3 )" ∧ ∃ e, parse "( - 10 3 )" = Except.error e) ∧
    hasMinusStr (Value.Arr [Value.Str "a"]) = false :=
  ⟨⟨by decide, claim_C4_dash_token_aborts.2.1 "( - 10 3 )" (by decide)⟩,
   claim_C4_dash_token_aborts.2.2.2 "( a )" (Value.Arr [Value.Str "a"]) rfl⟩

end Sexpr
